import Mathlib

/-!
Verification development for the websocket fan-out hub of this repository
(Go package `websocket`, file holding `Hub`, `Client`, the batching layer and
the upgrader origin check).

The Go `Hub` runs a single coordinating goroutine (`Hub.Run`) that serializes
register / unregister / broadcast-delivery events; all structural mutation of
the client set and every `close` of a client send channel happens inside this
one loop.  We therefore embed the registry as a sequential state machine.

The batching layer (`BroadcastMessageBatched`, `flushBatch`, `Shutdown`) is
guarded by `batchMutex`; its critical sections are likewise serialized, and a
`time.AfterFunc` callback is modelled as an explicit `timerFire` event carrying
the generation of the timer that was armed (the Go closure corresponds to one
armed timer; the code itself never inspects that identity, which the model
reflects faithfully).

Machine structures:
  * `Chan`     — a bounded Go channel: contents, capacity, closed flag, and an
                 instrumentation counter recording how many times `close` ran.
  * `HubState` — `Hub.clients` (active set) plus every client send channel
                 ever allocated, as an association list keyed by client id.
  * `BatchSt`  — `Hub.batchBuffer`, `Hub.batchTimer`, the buffered broadcast
                 submission channel (capacity 256), and a ghost `flushLog`
                 recording the contents handed to each executed flush.
-/

/-- JSON-serializable payload handed to the broadcast entry points.  `bad`
stands for a Go value that `json.Marshal` rejects (e.g. a channel). -/
inductive JData where
  | num : Int → JData
  | str : String → JData
  | bad : JData
deriving DecidableEq, Repr

/-- A message envelope before serialization: `Message{Type, Data}`. -/
abbrev Msg := String × JData

/-- Whether `json.Marshal` succeeds on the payload. -/
def JData.serializable : JData → Bool
  | .bad => false
  | _ => true

/-- The serialized bytes that travel on the broadcast channel and on client
send channels.  `json.Marshal` is injective on the values this program
produces, so the wire form keeps the structure: a single envelope, or the
reserved `"batch"` envelope wrapping the flushed buffer in order. -/
inductive Wire where
  | single : String → JData → Wire
  | batch : List Msg → Wire
deriving DecidableEq, Repr

/-- Serialization (`json.Marshal`) of one envelope: fails iff the payload is unserializable. -/
def marshalSingle (t : String) (d : JData) : Option Wire :=
  if d.serializable then some (Wire.single t d) else none

/-- Serialization of the `"batch"` envelope wrapping a flushed buffer. -/
def marshalBatch (buf : List Msg) : Option Wire :=
  if buf.all (fun p => p.2.serializable) then some (Wire.batch buf) else none

/-- Capacity of the hub's buffered broadcast submission channel (`NewHub`). -/
def broadcastCap : Nat := 256

/-- Capacity of a client's send channel (`ServeWS`). -/
def clientSendCap : Nat := 256

/-- A bounded Go channel of serialized messages.  `closeCount` instruments how
many times `close` has been executed on it, to state exactly-once closing. -/
structure Chan where
  cap : Nat
  buf : List Wire
  closed : Bool
  closeCount : Nat
deriving DecidableEq, Repr

/-- The channel `ServeWS` allocates for a new client. -/
def freshChan : Chan := { cap := clientSendCap, buf := [], closed := false, closeCount := 0 }

/-- Closing a channel: `close(ch)` in Go. -/
def closeChan (ch : Chan) : Chan :=
  { ch with closed := true, closeCount := ch.closeCount + 1 }

/-- Registry state of the `Hub`: the active client set (`Hub.clients`, a map
used with set semantics) and the send channel of every client ever created,
as an association list keyed by client id (a Go `*Client` identity). -/
structure HubState where
  clients : List Nat
  chans : List (Nat × Chan)
deriving DecidableEq, Repr

/-- The hub constructed by `NewHub`: no clients, no channels. -/
def initHub : HubState := { clients := [], chans := [] }

/-- First-match association-list lookup of a client's send channel. -/
def lookupChan : List (Nat × Chan) → Nat → Option Chan
  | [], _ => none
  | p :: rest, c => if p.1 = c then some p.2 else lookupChan rest c

/-- Update the (first) channel entry of client `c`. -/
def updateChan (f : Chan → Chan) : List (Nat × Chan) → Nat → List (Nat × Chan)
  | [], _ => []
  | p :: rest, c => if p.1 = c then (p.1, f p.2) :: rest else p :: updateChan f rest c

/-- The register case of `Hub.Run`: `h.clients[client] = true` — map insert with set
semantics (inserting a present key leaves the map unchanged). -/
def registerOp (s : HubState) (c : Nat) : HubState :=
  { s with clients := if c ∈ s.clients then s.clients else c :: s.clients }

/-- The `ServeWS` path followed by the register case: allocate a fresh open send
channel for a brand-new client identity, then register it. -/
def connectOp (s : HubState) (c : Nat) : HubState :=
  registerOp { s with chans := (c, freshChan) :: s.chans } c

/-- The unregister case of `Hub.Run`: if the client is still in the map, delete it
and close its send channel; otherwise do nothing. -/
def unregisterOp (s : HubState) (c : Nat) : HubState :=
  if c ∈ s.clients then
    { s with clients := s.clients.erase c, chans := updateChan closeChan s.chans c }
  else s

/-- One delivery attempt of the broadcast case of `Hub.Run` to one snapshotted
client: `select { case client.send <- message: default: evict }`.  If the
channel has room the message is enqueued; on the `default` branch (channel
full) the client is evicted under the lock, guarded by a membership check. -/
def deliverOne (m : Wire) (s : HubState) (c : Nat) : HubState :=
  match lookupChan s.chans c with
  | none => s
  | some ch =>
    if ch.buf.length < ch.cap then
      { s with chans := updateChan (fun x => { x with buf := x.buf ++ [m] }) s.chans c }
    else
      if c ∈ s.clients then
        { s with clients := s.clients.erase c, chans := updateChan closeChan s.chans c }
      else s

/-- The broadcast case of `Hub.Run`: snapshot the current client set under the read
lock, then attempt delivery to each snapshotted client in turn. -/
def broadcastPass (s : HubState) (m : Wire) : HubState :=
  s.clients.foldl (deliverOne m) s

/-- The client count: `Hub.GetClientCount`. -/
def GetClientCount (s : HubState) : Nat := s.clients.length

/-- The registry invariant.  Quantifiers range over the channel association
list, so the predicate is decidable on concrete states:
  * the active set has no duplicates (it is a Go map keyset);
  * channel entries have pairwise distinct keys (client identities are unique);
  * every active client owns a channel entry;
  * a client is in the active set iff its send channel is open;
  * a channel has been closed exactly once iff it is closed, never more. -/
def Invariant (s : HubState) : Prop :=
  s.clients.Nodup ∧
  (s.chans.map Prod.fst).Nodup ∧
  (∀ a ∈ s.clients, a ∈ s.chans.map Prod.fst) ∧
  (∀ p ∈ s.chans, (p.1 ∈ s.clients ↔ p.2.closed = false)) ∧
  (∀ p ∈ s.chans, p.2.closeCount = (if p.2.closed then 1 else 0))

instance (s : HubState) : Decidable (Invariant s) := by
  unfold Invariant; infer_instance

/-- A step never touches a closed channel: it is neither enqueued onto nor
closed a second time — its whole record is unchanged. -/
def ClosedPreserved (s t : HubState) : Prop :=
  ∀ c ch, lookupChan s.chans c = some ch → ch.closed = true →
    lookupChan t.chans c = some ch

/-- Requests consumed by the hub's coordinating loop. -/
inductive HEvent where
  | connect : Nat → HEvent
  | unreg : Nat → HEvent
  | bcast : Wire → HEvent
deriving DecidableEq, Repr

/-- One step of the coordinating loop. -/
def hstep (s : HubState) : HEvent → HubState
  | .connect c => connectOp s c
  | .unreg c => unregisterOp s c
  | .bcast m => broadcastPass s m

/-- Run the coordinating loop from the freshly constructed hub. -/
def runHub (evs : List HEvent) : HubState := evs.foldl hstep initHub

/-- The client identities of the connect events of a trace.  `ServeWS` builds
a brand-new `*Client` for every connection, so these are pairwise distinct in
any real trace. -/
def connectIds : List HEvent → List Nat
  | [] => []
  | .connect c :: rest => c :: connectIds rest
  | _ :: rest => connectIds rest

/-- Whether an event is a broadcast delivery. -/
def HEvent.isBcast : HEvent → Bool
  | .bcast _ => true
  | _ => false

/-- The set of clients registered and not since unregistered, read directly
off the trace — the specification-side meaning of `count()`. -/
def specActive (evs : List HEvent) : Finset Nat :=
  evs.foldl
    (fun S e =>
      match e with
      | .connect c => insert c S
      | .unreg c => S.erase c
      | .bcast _ => S) ∅

/-! ## Batch accumulator (`batchBuffer` / `batchTimer` under `batchMutex`) -/

/-- Threshold at which `BroadcastMessageBatched` flushes immediately. -/
def maxBatchSize : Nat := 10

/-- Batch-side state of the `Hub`.  `batchTimer` holds the generation of the
armed `time.AfterFunc` timer, `nextGen` the next generation to hand out
(instrumentation only: the code stores a bare `*time.Timer`).  `broadcastCh`
is the buffered broadcast submission channel, `flushLog` a ghost trace of the
buffer contents handed to each executed flush. -/
structure BatchSt where
  batchBuffer : List Msg
  batchTimer : Option Nat
  nextGen : Nat
  broadcastCh : List Wire
  flushLog : List (List Msg)
deriving DecidableEq, Repr

/-- Batch state of a freshly constructed hub. -/
def initBatch : BatchSt :=
  { batchBuffer := [], batchTimer := none, nextGen := 0, broadcastCh := [], flushLog := [] }

/-- Flushing: `Hub.flushBatch` is a no-op on an empty buffer; otherwise stop and clear the
timer, swap the buffer out, marshal the `"batch"` envelope (dropping it on a
marshal error) and try-send it on the broadcast channel (dropping it when the
channel is full). -/
def flushBatch (s : BatchSt) : BatchSt :=
  if s.batchBuffer = [] then s
  else
    let buffer := s.batchBuffer
    let s1 : BatchSt :=
      { s with batchTimer := none, batchBuffer := [], flushLog := s.flushLog ++ [buffer] }
    match marshalBatch buffer with
    | none => s1
    | some w =>
      if s1.broadcastCh.length < broadcastCap then
        { s1 with broadcastCh := s1.broadcastCh ++ [w] }
      else s1

/-- Batched submission: `Hub.BroadcastMessageBatched` appends the envelope to the buffer; flush
immediately at the threshold; otherwise arm the deadline timer if none is
armed. -/
def BroadcastMessageBatched (s : BatchSt) (t : String) (d : JData) : BatchSt :=
  let s1 : BatchSt := { s with batchBuffer := s.batchBuffer ++ [(t, d)] }
  if maxBatchSize ≤ s1.batchBuffer.length then flushBatch s1
  else if s1.batchTimer = none then
    { s1 with batchTimer := some s1.nextGen, nextGen := s1.nextGen + 1 }
  else s1

/-- The `time.AfterFunc` callback of the timer of generation `g`: under the
mutex it checks only that some timer is armed (`h.batchTimer != nil`) — not
that it is its own — and flushes if so. -/
def timerFire (s : BatchSt) (_g : Nat) : BatchSt :=
  if s.batchTimer = none then s else flushBatch s

/-- Shutdown: `Hub.Shutdown` stops and clears any armed timer, then flushes the pending
batch if non-empty. -/
def Shutdown (s : BatchSt) : BatchSt :=
  let s1 : BatchSt := { s with batchTimer := none }
  if s1.batchBuffer = [] then s1 else flushBatch s1

/-- Unbatched submission: `Hub.BroadcastMessage` marshals, dropping the message on error; then
try-send on the broadcast channel, dropping the message if it is full. -/
def BroadcastMessage (s : BatchSt) (t : String) (d : JData) : BatchSt :=
  match marshalSingle t d with
  | none => s
  | some w =>
    if s.broadcastCh.length < broadcastCap then
      { s with broadcastCh := s.broadcastCh ++ [w] }
    else s

/-- Sequential `BroadcastMessageBatched` calls for a list of envelopes. -/
def addAll (s : BatchSt) (msgs : List Msg) : BatchSt :=
  msgs.foldl (fun st p => BroadcastMessageBatched st p.1 p.2) s

/-- Events entering the batch layer's mutex, in mutex-acquisition order. -/
inductive BEvent where
  | add : String → JData → BEvent
  | fire : Nat → BEvent
  | shut : BEvent
deriving DecidableEq, Repr

/-- One batch-layer critical section. -/
def bstep (s : BatchSt) : BEvent → BatchSt
  | .add t d => BroadcastMessageBatched s t d
  | .fire g => timerFire s g
  | .shut => Shutdown s

/-- Run a sequence of batch-layer critical sections. -/
def brun (s : BatchSt) (evs : List BEvent) : BatchSt := evs.foldl bstep s

/-- Trace legality: a timer callback of generation `g` can only be delivered
after generation `g` was armed, and each callback runs at most once.
(`Timer.Stop` is best-effort: a timer that expired concurrently with the
section that stopped it still delivers its callback later.) -/
def legalAux : BatchSt → List Nat → List BEvent → Bool
  | _, _, [] => true
  | s, fired, e :: rest =>
    match e with
    | .fire g => decide (g < s.nextGen) && !(fired.contains g) && legalAux (bstep s e) (g :: fired) rest
    | _ => legalAux (bstep s e) fired rest

/-! ## Upgrader origin check -/

/-- The allow-list hard-coded in `upgrader.CheckOrigin`. -/
def allowedOrigins : List String :=
  ["http://localhost:5173", "http://localhost:3000",
   "http://127.0.0.1:5173", "http://127.0.0.1:3000"]

/-- The origin check `upgrader.CheckOrigin`: accept an absent (empty) origin header, otherwise
accept exactly the origins on the allow-list. -/
def checkOrigin (origin : String) : Bool :=
  if origin = "" then true
  else allowedOrigins.any (fun allowed => origin = allowed)

/-- A run of `n` consecutive `"tick"` envelopes starting at payload `lo`. -/
def ticks (lo n : Nat) : List Msg :=
  (List.range' lo n).map (fun i => ("tick", JData.num (Int.ofNat i)))

/-! ## Batch-layer lemmas -/

theorem flushBatch_core (s : BatchSt) (h : s.batchBuffer ≠ []) :
    (flushBatch s).batchBuffer = [] ∧ (flushBatch s).batchTimer = none ∧
    (flushBatch s).flushLog = s.flushLog ++ [s.batchBuffer] ∧
    (flushBatch s).nextGen = s.nextGen := by
  unfold flushBatch
  rw [if_neg h]
  rcases hm : marshalBatch s.batchBuffer with _ | w
  · simp [hm]
  · by_cases hl : s.broadcastCh.length < broadcastCap <;> simp [hm, hl]

theorem bmb_no_flush (s : BatchSt) (t : String) (d : JData)
    (h : s.batchBuffer.length + 1 < maxBatchSize) :
    (BroadcastMessageBatched s t d).batchBuffer = s.batchBuffer ++ [(t, d)] ∧
    (BroadcastMessageBatched s t d).flushLog = s.flushLog ∧
    (BroadcastMessageBatched s t d).broadcastCh = s.broadcastCh := by
  have hlt : ¬ maxBatchSize ≤ s.batchBuffer.length + 1 := by omega
  by_cases ht : s.batchTimer = none <;>
    simp [BroadcastMessageBatched, ht, hlt]

theorem addAll_below_threshold : ∀ (msgs : List Msg) (s : BatchSt),
    s.batchBuffer.length + msgs.length < maxBatchSize →
    (addAll s msgs).batchBuffer = s.batchBuffer ++ msgs ∧
    (addAll s msgs).flushLog = s.flushLog := by
  intro msgs
  induction msgs with
  | nil => intro s _; simp [addAll]
  | cons p rest ih =>
    intro s hlen
    simp only [List.length_cons] at hlen
    have hstep := bmb_no_flush s p.1 p.2 (by omega)
    have hrun : addAll s (p :: rest) = addAll (BroadcastMessageBatched s p.1 p.2) rest := rfl
    have hih := ih (BroadcastMessageBatched s p.1 p.2)
      (by rw [hstep.1]; simp only [List.length_append, List.length_cons, List.length_nil]; omega)
    rw [hrun]
    constructor
    · rw [hih.1, hstep.1]; simp
    · rw [hih.2, hstep.2.1]

/-- Claim C4 — adding exactly `maxBatchSize` (10) messages to an empty pending
buffer performs exactly one immediate size-triggered flush: afterwards the
pending buffer is empty, the deadline timer is disarmed, and the flush log has
grown by exactly the one window holding those ten messages in order. -/
theorem c4_threshold_flush (s : BatchSt) (msgs : List Msg)
    (hempty : s.batchBuffer = []) (hlen : msgs.length = maxBatchSize) :
    (addAll s msgs).batchBuffer = [] ∧
    (addAll s msgs).batchTimer = none ∧
    (addAll s msgs).flushLog = s.flushLog ++ [msgs] := by
  rcases List.eq_nil_or_concat msgs with hnil | ⟨as, b, hab⟩
  · rw [hnil] at hlen; simp [maxBatchSize] at hlen
  · subst hab
    have hlen9 : as.length = maxBatchSize - 1 := by
      simp [List.concat_eq_append] at hlen; simp [maxBatchSize] at hlen ⊢; omega
    have hpre := addAll_below_threshold as s (by rw [hempty, hlen9]; simp [maxBatchSize])
    have hrun : addAll s (as.concat b) = BroadcastMessageBatched (addAll s as) b.1 b.2 := by
      simp [addAll, List.concat_eq_append, List.foldl_append]
    set s9 := addAll s as with hs9
    have hbuf9 : s9.batchBuffer = as := by rw [hpre.1, hempty]; simp
    have hfull : maxBatchSize ≤ (s9.batchBuffer ++ [(b.1, b.2)]).length := by
      rw [hbuf9]; simp [hlen9, maxBatchSize]
    have hflush : BroadcastMessageBatched s9 b.1 b.2 =
        flushBatch { s9 with batchBuffer := s9.batchBuffer ++ [(b.1, b.2)] } := by
      unfold BroadcastMessageBatched; rw [if_pos hfull]
    have hne : ({ s9 with batchBuffer := s9.batchBuffer ++ [(b.1, b.2)] } : BatchSt).batchBuffer ≠ [] := by
      simp
    have hcore := flushBatch_core _ hne
    rw [hrun, hflush]
    refine ⟨hcore.1, hcore.2.1, ?_⟩
    rw [hcore.2.2.1]
    simp only [hbuf9, hpre.2]
    simp [List.concat_eq_append]

/-- Witness for C4 at ten concrete tick messages. -/
theorem c4_threshold_flush_witness :
    (addAll initBatch (ticks 0 10)).batchBuffer = [] ∧
    (addAll initBatch (ticks 0 10)).batchTimer = none ∧
    (addAll initBatch (ticks 0 10)).flushLog = initBatch.flushLog ++ [ticks 0 10] :=
  c4_threshold_flush initBatch (ticks 0 10) rfl (by decide)

/-- Claim C5 — fifteen sequential `BroadcastMessageBatched("tick", i)` calls
for i = 0..14 followed by the expiry of the deadline timer armed at the
eleventh call (the 50ms window elapsing) put exactly two `"batch"` wires on
the broadcast channel: the first wrapping ticks 0–9 in submission order
(size-triggered flush at the threshold), the second wrapping ticks 10–14 in
submission order (timer-triggered flush). -/
theorem c5_fifteen_ticks_two_batches :
    (timerFire (addAll initBatch (ticks 0 15)) 1).broadcastCh =
      [Wire.batch (ticks 0 10), Wire.batch (ticks 10 5)] ∧
    (timerFire (addAll initBatch (ticks 0 15)) 1).flushLog =
      [ticks 0 10, ticks 10 5] ∧
    (timerFire (addAll initBatch (ticks 0 15)) 1).batchBuffer = [] ∧
    (timerFire (addAll initBatch (ticks 0 15)) 1).batchTimer = none := by
  decide

/-- Claim C6 — `BroadcastMessage` never blocks and never faults: an
unserializable payload is dropped with all hub state unchanged, a saturated
broadcast submission channel drops the message with all hub state unchanged,
and otherwise the serialized envelope is enqueued. -/
theorem c6_broadcast_message_nonblocking (s : BatchSt) (t : String) (d : JData) :
    (d.serializable = false → BroadcastMessage s t d = s) ∧
    (broadcastCap ≤ s.broadcastCh.length → BroadcastMessage s t d = s) ∧
    (d.serializable = true → s.broadcastCh.length < broadcastCap →
      BroadcastMessage s t d = { s with broadcastCh := s.broadcastCh ++ [Wire.single t d] }) := by
  refine ⟨?_, ?_, ?_⟩
  · intro hbad
    unfold BroadcastMessage marshalSingle
    rw [hbad]
    simp
  · intro hsat
    unfold BroadcastMessage marshalSingle
    by_cases hs : d.serializable <;> simp [hs]
    intro h; omega
  · intro hs hroom
    unfold BroadcastMessage marshalSingle
    simp [hs, hroom]

/-- A batch state whose broadcast submission channel is saturated. -/
def satBatch : BatchSt :=
  { initBatch with broadcastCh := List.replicate broadcastCap (Wire.single "x" (JData.num 0)) }

/-- Witness for C6: a saturated channel drops, an unserializable payload drops. -/
theorem c6_broadcast_message_nonblocking_witness :
    BroadcastMessage satBatch "t" (JData.num 1) = satBatch ∧
    BroadcastMessage initBatch "t" JData.bad = initBatch :=
  ⟨(c6_broadcast_message_nonblocking satBatch "t" (JData.num 1)).2.1
     (by simp [satBatch, initBatch]),
   (c6_broadcast_message_nonblocking initBatch "t" JData.bad).1 rfl⟩

/-- Counterexample to claim C7 as stated: `Shutdown` installs no guard against
later batched broadcasts, so immediately after `Shutdown` returns a single
`BroadcastMessageBatched` call arms a brand-new deadline timer — a timer can
be newly armed after shutdown. -/
theorem c7_counterexample_timer_rearmed :
    (BroadcastMessageBatched (Shutdown initBatch) "tick" (JData.num 0)).batchTimer = some 0 := by
  decide

/-- Claim C7 as amended — `Shutdown` disarms the deadline timer, performs
exactly one synchronous flush when the pending buffer is non-empty and none
when it is empty, and no timer armed before shutdown can fire afterwards (a
stale callback finds the timer cleared and is a no-op); the hub does not,
however, refuse later batched broadcasts, which may arm a fresh timer. -/
theorem c7_shutdown_flushes_once (s : BatchSt) :
    (Shutdown s).batchTimer = none ∧
    (∀ g, timerFire (Shutdown s) g = Shutdown s) ∧
    (s.batchBuffer ≠ [] →
      (Shutdown s).batchBuffer = [] ∧
      (Shutdown s).flushLog = s.flushLog ++ [s.batchBuffer]) ∧
    (s.batchBuffer = [] →
      Shutdown s = { s with batchTimer := none }) := by
  have htmr : (Shutdown s).batchTimer = none := by
    unfold Shutdown
    by_cases hb : s.batchBuffer = []
    · simp [hb]
    · simp only [hb, if_neg hb]
      exact (flushBatch_core { s with batchTimer := none } (by simpa using hb)).2.1
  refine ⟨htmr, ?_, ?_, ?_⟩
  · intro g; unfold timerFire; rw [if_pos htmr]
  · intro hb
    unfold Shutdown
    rw [if_neg (by simpa using hb)]
    have hcore := flushBatch_core { s with batchTimer := none } (by simpa using hb)
    exact ⟨hcore.1, hcore.2.2.1⟩
  · intro hb
    unfold Shutdown
    rw [if_pos (by simpa using hb)]

/-- Witness for C7 (amended) at a state holding one pending message. -/
theorem c7_shutdown_flushes_once_witness :
    (Shutdown { initBatch with batchBuffer := [("tick", JData.num 0)] }).batchTimer = none ∧
    (Shutdown { initBatch with batchBuffer := [("tick", JData.num 0)] }).batchBuffer = [] :=
  ⟨(c7_shutdown_flushes_once { initBatch with batchBuffer := [("tick", JData.num 0)] }).1,
   ((c7_shutdown_flushes_once { initBatch with batchBuffer := [("tick", JData.num 0)] }).2.2.1
      (by decide)).1⟩

/-- The failing schedule for claim C8: the window-1 deadline timer (generation
0, armed by the first add) expires concurrently with the size-triggered flush
of window 1, so `Timer.Stop` cannot cancel its callback; an eleventh add opens
window 2 and arms the generation-1 timer; then the stale generation-0 callback
acquires the mutex. -/
def staleTrace : List BEvent :=
  (List.range 11).map (fun i => BEvent.add "tick" (JData.num (Int.ofNat i))) ++ [BEvent.fire 0]

/-- Claim C8 fails on the code: the timer callback's guard checks only that
some timer is armed (`h.batchTimer != nil`), not that it is its own timer, so
the legal schedule `staleTrace` ends with the generation-0 callback — armed
for window 1 — flushing window 2's buffer `[tick 10]` even though window 2 is
neither at the size threshold nor past its own 50ms deadline.  Before the
stale fire the log holds only window 1; after it the log holds a second flush
performed by the earlier window's timer. -/
theorem c8_stale_timer_flushes_later_window :
    legalAux initBatch [] staleTrace = true ∧
    (brun initBatch [BEvent.add "tick" (JData.num 0)]).batchTimer = some 0 ∧
    (brun initBatch (staleTrace.take 11)).flushLog = [ticks 0 10] ∧
    (brun initBatch (staleTrace.take 11)).batchTimer = some 1 ∧
    (brun initBatch (staleTrace.take 11)).batchBuffer = [("tick", JData.num 10)] ∧
    (brun initBatch staleTrace).flushLog = [ticks 0 10, [("tick", JData.num 10)]] := by
  decide

/-! ## Origin check -/

/-- Claim C9 — `upgrader.CheckOrigin` accepts every request with an absent
(empty) origin header, accepts every origin on the allow-list, and rejects
every non-empty origin not on the allow-list. -/
theorem c9_check_origin (o : String) :
    (o = "" → checkOrigin o = true) ∧
    (o ∈ allowedOrigins → checkOrigin o = true) ∧
    (o ≠ "" → o ∉ allowedOrigins → checkOrigin o = false) := by
  refine ⟨?_, ?_, ?_⟩
  · intro h; simp [checkOrigin, h]
  · intro h
    by_cases he : o = ""
    · simp [checkOrigin, he]
    · unfold checkOrigin
      rw [if_neg he]
      rw [List.any_eq_true]
      exact ⟨o, h, by simp⟩
  · intro hne hnm
    unfold checkOrigin
    rw [if_neg hne]
    rw [List.any_eq_false]
    intro a ha
    simp only [decide_eq_true_eq]
    intro hoa
    exact hnm (hoa ▸ ha)

/-- Witness for C9: an allow-listed origin is accepted, a foreign one rejected. -/
theorem c9_check_origin_witness :
    checkOrigin "http://localhost:5173" = true ∧
    checkOrigin "http://evil.example" = false :=
  ⟨(c9_check_origin "http://localhost:5173").2.1 (by decide),
   (c9_check_origin "http://evil.example").2.2 (by decide) (by decide)⟩

/-! ## Registry lemmas: the channel association list -/

theorem lookup_update_self (f : Chan → Chan) :
    ∀ (l : List (Nat × Chan)) (c : Nat),
      lookupChan (updateChan f l c) c = (lookupChan l c).map f := by
  intro l
  induction l with
  | nil => intro c; simp [lookupChan, updateChan]
  | cons p rest ih =>
    intro c
    by_cases hp : p.1 = c
    · simp [lookupChan, updateChan, hp]
    · simp [lookupChan, updateChan, hp, ih]


theorem lookup_update_ne (f : Chan → Chan) :
    ∀ (l : List (Nat × Chan)) (c d : Nat), d ≠ c →
      lookupChan (updateChan f l c) d = lookupChan l d := by
  intro l
  induction l with
  | nil => intro c d _; rfl
  | cons p rest ih =>
    intro c d hdc
    by_cases hp : p.1 = c
    · have hcd : ¬ c = d := fun h => hdc h.symm
      simp [lookupChan, updateChan, hp, hcd]
    · by_cases hpd : p.1 = d <;>
        simp [lookupChan, updateChan, hp, hpd, hdc, ih c d hdc]

theorem keys_update (f : Chan → Chan) :
    ∀ (l : List (Nat × Chan)) (c : Nat),
      (updateChan f l c).map Prod.fst = l.map Prod.fst := by
  intro l
  induction l with
  | nil => intro c; simp [updateChan]
  | cons p rest ih =>
    intro c
    by_cases hp : p.1 = c <;> simp [updateChan, hp, ih]

theorem lookup_none_iff :
    ∀ (l : List (Nat × Chan)) (c : Nat),
      lookupChan l c = none ↔ c ∉ l.map Prod.fst := by
  intro l
  induction l with
  | nil => intro c; simp [lookupChan]
  | cons p rest ih =>
    intro c
    by_cases hp : p.1 = c
    · simp [lookupChan, hp]
    · rw [List.map_cons]
      constructor
      · intro h hm
        rcases List.mem_cons.mp hm with h1 | h1
        · exact hp h1.symm
        · rw [lookupChan, if_neg hp] at h
          exact ((ih c).mp h) h1
      · intro hm
        rw [lookupChan, if_neg hp]
        exact (ih c).mpr (fun h1 => hm (List.mem_cons_of_mem _ h1))

theorem lookup_mem :
    ∀ (l : List (Nat × Chan)) (c : Nat) (ch : Chan),
      lookupChan l c = some ch → (c, ch) ∈ l := by
  intro l
  induction l with
  | nil => intro c ch h; simp [lookupChan] at h
  | cons p rest ih =>
    intro c ch h
    by_cases hp : p.1 = c
    · simp [lookupChan, hp] at h
      subst h
      subst hp
      exact List.mem_cons_self p rest
    · simp [lookupChan, hp] at h
      exact List.mem_cons_of_mem _ (ih c ch h)

theorem mem_lookup :
    ∀ (l : List (Nat × Chan)), (l.map Prod.fst).Nodup →
      ∀ (c : Nat) (ch : Chan), (c, ch) ∈ l → lookupChan l c = some ch := by
  intro l
  induction l with
  | nil => intro _ c ch h; simp at h
  | cons p rest ih =>
    intro hnd c ch h
    simp only [List.map_cons, List.nodup_cons] at hnd
    rcases List.mem_cons.mp h with h1 | h1
    · rw [← h1]
      simp [lookupChan]
    · have hpc : ¬ p.1 = c := by
        intro he
        exact hnd.1 (he ▸ (List.mem_map_of_mem Prod.fst h1))
      simp only [lookupChan, if_neg hpc]
      exact ih hnd.2 c ch h1

theorem mem_keys_of_mem (l : List (Nat × Chan)) (p : Nat × Chan) (h : p ∈ l) :
    p.1 ∈ l.map Prod.fst :=
  List.mem_map_of_mem Prod.fst h

/-! ## Registry lemmas: single steps -/

/-- Exhaustive case analysis of one delivery attempt (`deliverOne`). -/
theorem deliverOne_eq (m : Wire) (s : HubState) (c : Nat) :
    (lookupChan s.chans c = none ∧ deliverOne m s c = s) ∨
    (∃ ch, lookupChan s.chans c = some ch ∧ ch.buf.length < ch.cap ∧
      deliverOne m s c =
        { s with chans := updateChan (fun x => { x with buf := x.buf ++ [m] }) s.chans c }) ∨
    (∃ ch, lookupChan s.chans c = some ch ∧ ¬ ch.buf.length < ch.cap ∧ c ∈ s.clients ∧
      deliverOne m s c =
        { s with clients := s.clients.erase c, chans := updateChan closeChan s.chans c }) ∨
    (∃ ch, lookupChan s.chans c = some ch ∧ ¬ ch.buf.length < ch.cap ∧ c ∉ s.clients ∧
      deliverOne m s c = s) := by
  rcases hm : lookupChan s.chans c with _ | ch
  · left
    exact ⟨rfl, by unfold deliverOne; simp only [hm]⟩
  · by_cases hroom : ch.buf.length < ch.cap
    · right; left
      exact ⟨ch, rfl, hroom, by unfold deliverOne; simp only [hm, if_pos hroom]⟩
    · by_cases hcm : c ∈ s.clients
      · right; right; left
        exact ⟨ch, rfl, hroom, hcm,
          by unfold deliverOne; simp only [hm, if_neg hroom, if_pos hcm]⟩
      · right; right; right
        exact ⟨ch, rfl, hroom, hcm,
          by unfold deliverOne; simp only [hm, if_neg hroom, if_neg hcm]⟩

theorem deliverOne_frame (m : Wire) (s : HubState) (c d : Nat) (hdc : d ≠ c) :
    lookupChan (deliverOne m s c).chans d = lookupChan s.chans d ∧
    ((d ∈ (deliverOne m s c).clients) ↔ d ∈ s.clients) := by
  rcases deliverOne_eq m s c with ⟨_, he⟩ | ⟨ch, _, _, he⟩ | ⟨ch, _, _, _, he⟩ | ⟨ch, _, _, _, he⟩ <;>
    rw [he]
  · exact ⟨rfl, Iff.rfl⟩
  · exact ⟨lookup_update_ne _ s.chans c d hdc, Iff.rfl⟩
  · exact ⟨lookup_update_ne _ s.chans c d hdc, List.mem_erase_of_ne hdc⟩
  · exact ⟨rfl, Iff.rfl⟩

theorem deliverOne_clients_nodup (m : Wire) (s : HubState) (c : Nat)
    (h : s.clients.Nodup) : (deliverOne m s c).clients.Nodup := by
  rcases deliverOne_eq m s c with ⟨_, he⟩ | ⟨ch, _, _, he⟩ | ⟨ch, _, _, _, he⟩ | ⟨ch, _, _, _, he⟩ <;>
    rw [he]
  · exact h
  · exact h
  · exact h.erase c
  · exact h

theorem deliverOne_keys (m : Wire) (s : HubState) (c : Nat) :
    (deliverOne m s c).chans.map Prod.fst = s.chans.map Prod.fst := by
  rcases deliverOne_eq m s c with ⟨_, he⟩ | ⟨ch, _, _, he⟩ | ⟨ch, _, _, _, he⟩ | ⟨ch, _, _, _, he⟩ <;>
    rw [he]
  · exact keys_update _ s.chans c
  · exact keys_update _ s.chans c

theorem deliverOne_clients_subset (m : Wire) (s : HubState) (c : Nat) :
    (deliverOne m s c).clients ⊆ s.clients := by
  rcases deliverOne_eq m s c with ⟨_, he⟩ | ⟨ch, _, _, he⟩ | ⟨ch, _, _, _, he⟩ | ⟨ch, _, _, _, he⟩ <;>
    rw [he]
  · exact fun a ha => ha
  · exact fun a ha => ha
  · exact fun a ha => List.mem_of_mem_erase ha
  · exact fun a ha => ha

/-- Clients not in the snapshot list are untouched by a delivery fold. -/
theorem foldl_frame (m : Wire) :
    ∀ (l : List Nat) (s : HubState) (c : Nat), c ∉ l →
      lookupChan (l.foldl (deliverOne m) s).chans c = lookupChan s.chans c ∧
      ((c ∈ (l.foldl (deliverOne m) s).clients) ↔ c ∈ s.clients) := by
  intro l
  induction l with
  | nil => intro s c _; exact ⟨rfl, Iff.rfl⟩
  | cons a rest ih =>
    intro s c hc
    have hca : c ≠ a := fun h => hc (h ▸ List.mem_cons_self a rest)
    have hrest : c ∉ rest := fun h => hc (List.mem_cons_of_mem a h)
    have h1 := deliverOne_frame m s a c hca
    have h2 := ih (deliverOne m s a) c hrest
    exact ⟨h2.1.trans h1.1, h2.2.trans h1.2⟩

/-- Transport an entry-wise property across an association-list update. -/
theorem forall_update (P : Nat × Chan → Prop) (f : Chan → Chan)
    (l : List (Nat × Chan)) (hk : (l.map Prod.fst).Nodup) (c : Nat)
    (hall : ∀ p ∈ l, p.1 ≠ c → P p)
    (hf : ∀ ch, lookupChan l c = some ch → P (c, f ch)) :
    ∀ p ∈ updateChan f l c, P p := by
  intro p hp
  have hk' : ((updateChan f l c).map Prod.fst).Nodup := by
    rw [keys_update]; exact hk
  have hl : lookupChan (updateChan f l c) p.1 = some p.2 :=
    mem_lookup _ hk' p.1 p.2 hp
  by_cases hpc : p.1 = c
  · rw [hpc, lookup_update_self] at hl
    rcases ho : lookupChan l c with _ | ch
    · rw [ho] at hl; simp at hl
    · rw [ho] at hl
      simp only [Option.map_some', Option.some.injEq] at hl
      have hpe : p = (c, f ch) := by rw [← hpc, hl]
      rw [hpe]
      exact hf ch ho
  · rw [lookup_update_ne _ _ _ _ hpc] at hl
    exact hall p (lookup_mem _ _ _ hl) hpc

/-- Evicting an active client (shared shape of the unregister case and the
full-queue branch of the broadcast case) preserves the registry invariant. -/
theorem inv_evict (s : HubState) (c : Nat) (h : Invariant s) (hcm : c ∈ s.clients) :
    Invariant { s with clients := s.clients.erase c,
                       chans := updateChan closeChan s.chans c } := by
  obtain ⟨hnd, hk, hac, hio, hcc⟩ := h
  refine ⟨hnd.erase c, ?_, ?_, ?_, ?_⟩
  · show ((updateChan closeChan s.chans c).map Prod.fst).Nodup
    rw [keys_update]; exact hk
  · intro a ha
    show a ∈ (updateChan closeChan s.chans c).map Prod.fst
    rw [keys_update]
    exact hac a (List.mem_of_mem_erase ha)
  · show ∀ p ∈ updateChan closeChan s.chans c,
      (p.1 ∈ s.clients.erase c ↔ p.2.closed = false)
    refine forall_update (fun p => p.1 ∈ s.clients.erase c ↔ p.2.closed = false)
      closeChan s.chans hk c ?_ ?_
    · intro p hp hpc
      constructor
      · intro hmem; exact (hio p hp).mp (List.mem_of_mem_erase hmem)
      · intro hop; exact (List.mem_erase_of_ne hpc).mpr ((hio p hp).mpr hop)
    · intro ch _
      constructor
      · intro hmem; exact absurd hmem hnd.not_mem_erase
      · intro hop; simp [closeChan] at hop
  · show ∀ p ∈ updateChan closeChan s.chans c,
      p.2.closeCount = (if p.2.closed then 1 else 0)
    refine forall_update (fun p => p.2.closeCount = (if p.2.closed then 1 else 0))
      closeChan s.chans hk c ?_ ?_
    · intro p hp _; exact hcc p hp
    · intro ch hch
      have hchm := lookup_mem _ _ _ hch
      have hopen : ch.closed = false := (hio (c, ch) hchm).mp hcm
      have h0 : ch.closeCount = 0 := by
        have := hcc (c, ch) hchm
        rw [hopen] at this
        simpa using this
      simp [closeChan, h0]

/-- One delivery attempt preserves the registry invariant. -/
theorem inv_deliverOne (m : Wire) (s : HubState) (c : Nat) (h : Invariant s) :
    Invariant (deliverOne m s c) := by
  rcases deliverOne_eq m s c with ⟨_, he⟩ | ⟨ch, hm, hroom, he⟩ | ⟨ch, hm, hroom, hcm, he⟩ |
    ⟨ch, _, _, _, he⟩ <;> rw [he]
  · exact h
  · obtain ⟨hnd, hk, hac, hio, hcc⟩ := h
    refine ⟨hnd, ?_, ?_, ?_, ?_⟩
    · show ((updateChan _ s.chans c).map Prod.fst).Nodup
      rw [keys_update]; exact hk
    · intro a ha
      show a ∈ (updateChan _ s.chans c).map Prod.fst
      rw [keys_update]; exact hac a ha
    · show ∀ p ∈ updateChan (fun x => { x with buf := x.buf ++ [m] }) s.chans c,
        (p.1 ∈ s.clients ↔ p.2.closed = false)
      refine forall_update (fun p => p.1 ∈ s.clients ↔ p.2.closed = false)
        (fun x => { x with buf := x.buf ++ [m] }) s.chans hk c ?_ ?_
      · intro p hp _; exact hio p hp
      · intro ch' hch'
        have := hio (c, ch') (lookup_mem _ _ _ hch')
        simpa using this
    · show ∀ p ∈ updateChan (fun x => { x with buf := x.buf ++ [m] }) s.chans c,
        p.2.closeCount = (if p.2.closed then 1 else 0)
      refine forall_update (fun p => p.2.closeCount = (if p.2.closed then 1 else 0))
        (fun x => { x with buf := x.buf ++ [m] }) s.chans hk c ?_ ?_
      · intro p hp _; exact hcc p hp
      · intro ch' hch'
        have := hcc (c, ch') (lookup_mem _ _ _ hch')
        simpa using this
  · exact inv_evict s c h hcm
  · exact h

/-- The unregister case preserves the registry invariant. -/
theorem inv_unregister (s : HubState) (c : Nat) (h : Invariant s) :
    Invariant (unregisterOp s c) := by
  unfold unregisterOp
  by_cases hcm : c ∈ s.clients
  · rw [if_pos hcm]; exact inv_evict s c h hcm
  · rw [if_neg hcm]; exact h

/-- Registering a brand-new client (fresh identity, fresh open channel)
preserves the registry invariant. -/
theorem inv_connect (s : HubState) (c : Nat) (h : Invariant s)
    (hf : lookupChan s.chans c = none) : Invariant (connectOp s c) := by
  obtain ⟨hnd, hk, hac, hio, hcc⟩ := h
  have hck : c ∉ s.chans.map Prod.fst := (lookup_none_iff _ _).mp hf
  have hccl : c ∉ s.clients := fun hmem => hck (hac c hmem)
  have he : connectOp s c =
      { clients := c :: s.clients, chans := (c, freshChan) :: s.chans } := by
    unfold connectOp registerOp
    simp [hccl]
  rw [he]
  refine ⟨List.nodup_cons.mpr ⟨hccl, hnd⟩, ?_, ?_, ?_, ?_⟩
  · show (((c, freshChan) :: s.chans).map Prod.fst).Nodup
    rw [List.map_cons]
    exact List.nodup_cons.mpr ⟨hck, hk⟩
  · intro a ha
    rcases List.mem_cons.mp ha with h1 | h1
    · simp [h1]
    · rw [List.map_cons]
      exact List.mem_cons_of_mem _ (hac a h1)
  · intro p hp
    rcases List.mem_cons.mp hp with h1 | h1
    · rw [h1]; simp [freshChan]
    · have hpk : p.1 ≠ c := fun he2 => hck (he2 ▸ mem_keys_of_mem _ p h1)
      constructor
      · intro hmem
        rcases List.mem_cons.mp hmem with h2 | h2
        · exact absurd h2 hpk
        · exact (hio p h1).mp h2
      · intro hop
        exact List.mem_cons_of_mem _ ((hio p h1).mpr hop)
  · intro p hp
    rcases List.mem_cons.mp hp with h1 | h1
    · rw [h1]; simp [freshChan]
    · exact hcc p h1

/-- A whole delivery fold preserves the registry invariant. -/
theorem inv_foldl (m : Wire) : ∀ (l : List Nat) (s : HubState), Invariant s →
    Invariant (l.foldl (deliverOne m) s) := by
  intro l
  induction l with
  | nil => intro s h; exact h
  | cons a rest ih => intro s h; exact ih _ (inv_deliverOne m s a h)

/-- A broadcast delivery pass preserves the registry invariant. -/
theorem inv_broadcastPass (s : HubState) (m : Wire) (h : Invariant s) :
    Invariant (broadcastPass s m) :=
  inv_foldl m s.clients s h

/-- The enqueue branch of one delivery attempt. -/
theorem deliverOne_enqueue (m : Wire) (s : HubState) (c : Nat) (ch : Chan)
    (hch : lookupChan s.chans c = some ch) (hroom : ch.buf.length < ch.cap) :
    deliverOne m s c =
      { s with chans := updateChan (fun x => { x with buf := x.buf ++ [m] }) s.chans c } := by
  unfold deliverOne
  simp only [hch, if_pos hroom]

/-- The eviction branch of one delivery attempt. -/
theorem deliverOne_evict (m : Wire) (s : HubState) (c : Nat) (ch : Chan)
    (hch : lookupChan s.chans c = some ch) (hroom : ¬ ch.buf.length < ch.cap)
    (hcm : c ∈ s.clients) :
    deliverOne m s c =
      { s with clients := s.clients.erase c, chans := updateChan closeChan s.chans c } := by
  unfold deliverOne
  simp only [hch, if_neg hroom, if_pos hcm]

/-- The unregister case never touches an already-closed channel. -/
theorem cp_unregister (s : HubState) (c : Nat) (h : Invariant s) :
    ClosedPreserved s (unregisterOp s c) := by
  intro d ch hd hcl
  unfold unregisterOp
  by_cases hcm : c ∈ s.clients
  · rw [if_pos hcm]
    show lookupChan (updateChan closeChan s.chans c) d = some ch
    by_cases hdc : d = c
    · subst hdc
      obtain ⟨_, _, _, hio, _⟩ := h
      have := (hio (d, ch) (lookup_mem _ _ _ hd)).mp hcm
      rw [hcl] at this
      exact Bool.noConfusion this
    · rw [lookup_update_ne _ _ _ _ hdc]; exact hd
  · rw [if_neg hcm]; exact hd

/-- Registering a brand-new client never touches an already-closed channel. -/
theorem cp_connect (s : HubState) (c : Nat)
    (hf : lookupChan s.chans c = none) : ClosedPreserved s (connectOp s c) := by
  intro d ch hd _
  show lookupChan ((c, freshChan) :: s.chans) d = some ch
  simp only [lookupChan]
  by_cases hcd : c = d
  · subst hcd
    rw [hf] at hd
    exact Option.noConfusion hd
  · rw [if_neg hcd]; exact hd

/-- A delivery fold over distinct, currently-open snapshot entries never
touches an already-closed channel. -/
theorem cp_foldl (m : Wire) :
    ∀ (l : List Nat) (s : HubState), Invariant s → l.Nodup →
      (∀ d ∈ l, ∀ ch, lookupChan s.chans d = some ch → ch.closed = false) →
      ClosedPreserved s (l.foldl (deliverOne m) s) := by
  intro l
  induction l with
  | nil => intro s _ _ _ d ch hd _; exact hd
  | cons a rest ih =>
    intro s hinv hndl hopen
    have hnd := List.nodup_cons.mp hndl
    have cp1 : ClosedPreserved s (deliverOne m s a) := by
      intro d ch hd hcl
      rcases deliverOne_eq m s a with ⟨_, he⟩ | ⟨ch', hm, hroom, he⟩ |
        ⟨ch', hm, hroom, hcm, he⟩ | ⟨ch', _, _, _, he⟩ <;> rw [he]
      · exact hd
      · show lookupChan (updateChan _ s.chans a) d = some ch
        by_cases hda : d = a
        · subst hda
          have := hopen d (List.mem_cons_self _ _) ch hd
          rw [hcl] at this
          exact Bool.noConfusion this
        · rw [lookup_update_ne _ _ _ _ hda]; exact hd
      · show lookupChan (updateChan closeChan s.chans a) d = some ch
        by_cases hda : d = a
        · subst hda
          have := hopen d (List.mem_cons_self _ _) ch hd
          rw [hcl] at this
          exact Bool.noConfusion this
        · rw [lookup_update_ne _ _ _ _ hda]; exact hd
      · exact hd
    have hinv1 := inv_deliverOne m s a hinv
    have hopen1 : ∀ d ∈ rest, ∀ ch,
        lookupChan (deliverOne m s a).chans d = some ch → ch.closed = false := by
      intro d hdr ch hd
      have hda : d ≠ a := fun he2 => hnd.1 (he2 ▸ hdr)
      rw [(deliverOne_frame m s a d hda).1] at hd
      exact hopen d (List.mem_cons_of_mem _ hdr) ch hd
    have cp2 := ih (deliverOne m s a) hinv1 hnd.2 hopen1
    intro d ch hd hcl
    exact cp2 d ch (cp1 d ch hd hcl) hcl

/-- A broadcast delivery pass never touches an already-closed channel. -/
theorem cp_broadcastPass (s : HubState) (h : Invariant s) (m : Wire) :
    ClosedPreserved s (broadcastPass s m) := by
  apply cp_foldl m s.clients s h h.1
  intro d hdm ch hd
  obtain ⟨_, _, _, hio, _⟩ := h
  exact (hio (d, ch) (lookup_mem _ _ _ hd)).mp hdm

/-- Fate of each snapshotted client in one delivery pass: a client with room
receives the message and keeps its membership; an active client with a full
queue ends up evicted with its channel closed. -/
theorem pass_member (m : Wire) :
    ∀ (l : List Nat) (s : HubState), l.Nodup → s.clients.Nodup →
      ∀ c, c ∈ l → ∀ ch, lookupChan s.chans c = some ch →
      ((ch.buf.length < ch.cap →
        lookupChan (l.foldl (deliverOne m) s).chans c = some { ch with buf := ch.buf ++ [m] } ∧
        ((c ∈ (l.foldl (deliverOne m) s).clients) ↔ c ∈ s.clients)) ∧
      (¬ ch.buf.length < ch.cap → c ∈ s.clients →
        lookupChan (l.foldl (deliverOne m) s).chans c = some (closeChan ch) ∧
        c ∉ (l.foldl (deliverOne m) s).clients)) := by
  intro l
  induction l with
  | nil => intro s _ _ c hc; cases hc
  | cons a rest ih =>
    intro s hndl hnds c hc ch hch
    have hnd := List.nodup_cons.mp hndl
    by_cases hca : c = a
    · subst hca
      constructor
      · intro hroom
        have he := deliverOne_enqueue m s c ch hch hroom
        have hfr := foldl_frame m rest (deliverOne m s c) c hnd.1
        constructor
        · rw [List.foldl_cons, hfr.1, he]
          show lookupChan (updateChan _ s.chans c) c = _
          rw [lookup_update_self, hch]
          rfl
        · rw [List.foldl_cons]
          exact hfr.2.trans (by rw [he])
      · intro hroom hcm
        have he := deliverOne_evict m s c ch hch hroom hcm
        have hfr := foldl_frame m rest (deliverOne m s c) c hnd.1
        constructor
        · rw [List.foldl_cons, hfr.1, he]
          show lookupChan (updateChan closeChan s.chans c) c = _
          rw [lookup_update_self, hch]
          rfl
        · rw [List.foldl_cons]
          intro hmem
          have hmem1 := hfr.2.mp hmem
          rw [he] at hmem1
          exact hnds.not_mem_erase hmem1
    · have hcr : c ∈ rest := by
        rcases List.mem_cons.mp hc with h1 | h1
        · exact absurd h1 hca
        · exact h1
      have hfr1 := deliverOne_frame m s a c hca
      have hnds1 := deliverOne_clients_nodup m s a hnds
      have hch1 : lookupChan (deliverOne m s a).chans c = some ch := by
        rw [hfr1.1]; exact hch
      have IH := ih (deliverOne m s a) hnd.2 hnds1 c hcr ch hch1
      constructor
      · intro hroom
        have hr := IH.1 hroom
        rw [List.foldl_cons]
        exact ⟨hr.1, hr.2.trans hfr1.2⟩
      · intro hroom hcm
        have hcm1 : c ∈ (deliverOne m s a).clients := hfr1.2.mpr hcm
        have hr := IH.2 hroom hcm1
        rw [List.foldl_cons]
        exact hr

/-- Claim C1 — in a broadcast delivery pass, a snapshotted active client whose
send queue is full is forcibly evicted: it leaves the active set and its queue
is closed exactly once (close count 1), and a further broadcast pass leaves it
untouched (still out of the set, still closed exactly once); every other
snapshotted client with room receives the message and stays registered. -/
theorem c1_full_queue_evicted (s : HubState) (m m2 : Wire) (c : Nat)
    (hInv : Invariant s) (hc : c ∈ s.clients)
    (ch : Chan) (hch : lookupChan s.chans c = some ch)
    (hfull : ch.cap ≤ ch.buf.length) :
    c ∉ (broadcastPass s m).clients ∧
    lookupChan (broadcastPass s m).chans c = some { ch with closed := true, closeCount := 1 } ∧
    c ∉ (broadcastPass (broadcastPass s m) m2).clients ∧
    lookupChan (broadcastPass (broadcastPass s m) m2).chans c
      = some { ch with closed := true, closeCount := 1 } ∧
    (∀ d chd, d ∈ s.clients → d ≠ c → lookupChan s.chans d = some chd →
      chd.buf.length < chd.cap →
      d ∈ (broadcastPass s m).clients ∧
      lookupChan (broadcastPass s m).chans d = some { chd with buf := chd.buf ++ [m] }) := by
  obtain ⟨hnd, hk, hac, hio, hcc⟩ := hInv
  have hopen : ch.closed = false := (hio (c, ch) (lookup_mem _ _ _ hch)).mp hc
  have h0 : ch.closeCount = 0 := by
    have := hcc (c, ch) (lookup_mem _ _ _ hch)
    rw [hopen] at this
    simpa using this
  have hclose : closeChan ch = { ch with closed := true, closeCount := 1 } := by
    simp [closeChan, h0]
  have hroomn : ¬ ch.buf.length < ch.cap := by omega
  have hev := (pass_member m s.clients s hnd hnd c hc ch hch).2 hroomn hc
  have hb1 : lookupChan (broadcastPass s m).chans c = some (closeChan ch) := hev.1
  have hb2 : c ∉ (broadcastPass s m).clients := hev.2
  have hfr2 := foldl_frame m2 ((broadcastPass s m).clients) (broadcastPass s m) c hb2
  refine ⟨hb2, by rw [hb1, hclose], ?_, ?_, ?_⟩
  · intro hmem
    exact hb2 (hfr2.2.mp hmem)
  · show lookupChan (((broadcastPass s m).clients).foldl
        (deliverOne m2) (broadcastPass s m)).chans c = _
    rw [hfr2.1, hb1, hclose]
  · intro d chd hdm hdc hchd hdroom
    have hdel := (pass_member m s.clients s hnd hnd d hdm chd hchd).1 hdroom
    exact ⟨hdel.2.mpr hdm, hdel.1⟩

/-- A concrete two-client hub whose client 1 has a full send queue (capacity 1,
one queued wire) and whose client 2 has room. -/
def c1state : HubState :=
  { clients := [1, 2],
    chans := [(1, { cap := 1, buf := [Wire.single "x" (JData.num 0)], closed := false, closeCount := 0 }),
              (2, { cap := 2, buf := [], closed := false, closeCount := 0 })] }

/-- Witness for C1 at `c1state`: client 1 is evicted and closed exactly once,
and stays so under a second broadcast pass. -/
theorem c1_full_queue_evicted_witness :
    1 ∉ (broadcastPass c1state (Wire.single "m" (JData.num 1))).clients ∧
    lookupChan (broadcastPass c1state (Wire.single "m" (JData.num 1))).chans 1
      = some { cap := 1, buf := [Wire.single "x" (JData.num 0)], closed := true, closeCount := 1 } ∧
    1 ∉ (broadcastPass (broadcastPass c1state (Wire.single "m" (JData.num 1)))
          (Wire.single "m" (JData.num 2))).clients ∧
    lookupChan (broadcastPass (broadcastPass c1state (Wire.single "m" (JData.num 1)))
          (Wire.single "m" (JData.num 2))).chans 1
      = some { cap := 1, buf := [Wire.single "x" (JData.num 0)], closed := true, closeCount := 1 } ∧
    (∀ d chd, d ∈ c1state.clients → d ≠ 1 → lookupChan c1state.chans d = some chd →
      chd.buf.length < chd.cap →
      d ∈ (broadcastPass c1state (Wire.single "m" (JData.num 1))).clients ∧
      lookupChan (broadcastPass c1state (Wire.single "m" (JData.num 1))).chans d
        = some { chd with buf := chd.buf ++ [Wire.single "m" (JData.num 1)] }) :=
  c1_full_queue_evicted c1state (Wire.single "m" (JData.num 1)) (Wire.single "m" (JData.num 2)) 1
    (by decide) (by decide)
    { cap := 1, buf := [Wire.single "x" (JData.num 0)], closed := false, closeCount := 0 }
    (by decide) (by decide)

/-- Claim C3 — `unregister` is idempotent and never double-closes: the first
call removes the client from the active set (when present) and closes its
queue, turning close count from 0 to exactly 1; a repeated call is a no-op
producing a state equal to the first call's. -/
theorem c3_unregister_idempotent (s : HubState) (c : Nat) (hInv : Invariant s) :
    unregisterOp (unregisterOp s c) c = unregisterOp s c ∧
    c ∉ (unregisterOp s c).clients ∧
    (∀ ch, lookupChan s.chans c = some ch → c ∈ s.clients →
      lookupChan (unregisterOp s c).chans c = some { ch with closed := true, closeCount := 1 }) := by
  obtain ⟨hnd, hk, hac, hio, hcc⟩ := hInv
  by_cases hcm : c ∈ s.clients
  · have he : unregisterOp s c =
        { s with clients := s.clients.erase c, chans := updateChan closeChan s.chans c } := by
      unfold unregisterOp; rw [if_pos hcm]
    have hnotin : c ∉ (unregisterOp s c).clients := by
      rw [he]; exact hnd.not_mem_erase
    refine ⟨?_, hnotin, ?_⟩
    · conv_lhs => rw [unregisterOp]
      rw [if_neg hnotin]
    · intro ch hch _
      rw [he]
      show lookupChan (updateChan closeChan s.chans c) c = _
      rw [lookup_update_self, hch]
      have hopen : ch.closed = false := (hio (c, ch) (lookup_mem _ _ _ hch)).mp hcm
      have h0 : ch.closeCount = 0 := by
        have := hcc (c, ch) (lookup_mem _ _ _ hch)
        rw [hopen] at this
        simpa using this
      simp [closeChan, h0]
  · have he : unregisterOp s c = s := by unfold unregisterOp; rw [if_neg hcm]
    refine ⟨by rw [he, he], by rw [he]; exact hcm, ?_⟩
    intro ch _ hmem
    exact absurd hmem hcm

/-- Witness for C3 at `c1state`: unregistering client 2 twice equals
unregistering it once, and the single call closes its queue exactly once. -/
theorem c3_unregister_idempotent_witness :
    unregisterOp (unregisterOp c1state 2) 2 = unregisterOp c1state 2 ∧
    2 ∉ (unregisterOp c1state 2).clients ∧
    (∀ ch, lookupChan c1state.chans 2 = some ch → 2 ∈ c1state.clients →
      lookupChan (unregisterOp c1state 2).chans 2
        = some { ch with closed := true, closeCount := 1 }) :=
  c3_unregister_idempotent c1state 2 (by decide)

/-! ## Reachable states of the coordinating loop -/

theorem connectIds_append :
    ∀ (l1 l2 : List HEvent), connectIds (l1 ++ l2) = connectIds l1 ++ connectIds l2 := by
  intro l1 l2
  induction l1 with
  | nil => rfl
  | cons e rest ih => cases e <;> simp [connectIds, ih]

theorem not_mem_of_nodup_append (xs : List Nat) (c : Nat)
    (h : (xs ++ [c]).Nodup) : c ∉ xs := by
  intro hc
  rcases List.nodup_append.mp h with ⟨_, _, hdisj⟩
  exact hdisj hc (List.mem_singleton_self c)

theorem keys_connect (s : HubState) (c : Nat) :
    (connectOp s c).chans.map Prod.fst = c :: s.chans.map Prod.fst := by
  show (((c, freshChan) :: s.chans).map Prod.fst) = _
  rw [List.map_cons]

theorem keys_unregister (s : HubState) (c : Nat) :
    (unregisterOp s c).chans.map Prod.fst = s.chans.map Prod.fst := by
  unfold unregisterOp
  by_cases hcm : c ∈ s.clients
  · rw [if_pos hcm]; exact keys_update _ _ _
  · rw [if_neg hcm]

theorem keys_foldl (m : Wire) :
    ∀ (l : List Nat) (s : HubState),
      (l.foldl (deliverOne m) s).chans.map Prod.fst = s.chans.map Prod.fst := by
  intro l
  induction l with
  | nil => intro s; rfl
  | cons a rest ih =>
    intro s
    rw [List.foldl_cons, ih, deliverOne_keys]

/-- Every state reachable by a valid trace (fresh client identities at each
connect) satisfies the registry invariant, and its channel keys are exactly
the connected identities. -/
theorem runHub_inv_keys :
    ∀ (evs : List HEvent), (connectIds evs).Nodup →
      Invariant (runHub evs) ∧
      (runHub evs).chans.map Prod.fst = (connectIds evs).reverse := by
  intro evs
  induction evs using List.reverseRecOn with
  | nil =>
    intro _
    exact ⟨by decide, rfl⟩
  | append_singleton l e ih =>
    intro hval
    have hval_l : (connectIds l).Nodup := by
      rw [connectIds_append] at hval
      exact hval.of_append_left
    obtain ⟨hinv, hkeys⟩ := ih hval_l
    have hrun : runHub (l ++ [e]) = hstep (runHub l) e := by
      unfold runHub
      rw [List.foldl_append]
      rfl
    cases e with
    | connect c =>
      have hcnotin : c ∉ connectIds l := by
        rw [connectIds_append] at hval
        exact not_mem_of_nodup_append _ c hval
      have hfresh : lookupChan (runHub l).chans c = none := by
        rw [lookup_none_iff, hkeys]
        simpa using hcnotin
      constructor
      · rw [hrun]
        exact inv_connect _ c hinv hfresh
      · rw [hrun]
        show (connectOp (runHub l) c).chans.map Prod.fst = _
        rw [keys_connect, hkeys, connectIds_append]
        simp [connectIds]
    | unreg c =>
      constructor
      · rw [hrun]
        exact inv_unregister _ c hinv
      · rw [hrun]
        show (unregisterOp (runHub l) c).chans.map Prod.fst = _
        rw [keys_unregister, hkeys, connectIds_append]
        simp [connectIds]
    | bcast m =>
      constructor
      · rw [hrun]
        exact inv_broadcastPass _ m hinv
      · rw [hrun]
        show ((runHub l).clients.foldl (deliverOne m) (runHub l)).chans.map Prod.fst = _
        rw [keys_foldl, hkeys, connectIds_append]
        simp [connectIds]

/-- Claim C2 — in every reachable hub state a client is in the active set iff
its send queue is open, each queue is closed exactly once and together with
removal from the active set (the `Invariant` conjuncts), every coordinating
step — register of a fresh client, unregister, broadcast with eviction —
preserves this, and no step ever enqueues onto (or re-closes) a closed queue:
the full record of every closed channel is untouched. -/
theorem c2_active_iff_open (evs : List HEvent) (e : HEvent)
    (hval : (connectIds (evs ++ [e])).Nodup) :
    Invariant (runHub evs) ∧
    Invariant (runHub (evs ++ [e])) ∧
    ClosedPreserved (runHub evs) (runHub (evs ++ [e])) := by
  have hval_l : (connectIds evs).Nodup := by
    rw [connectIds_append] at hval
    exact hval.of_append_left
  obtain ⟨hinv, hkeys⟩ := runHub_inv_keys evs hval_l
  refine ⟨hinv, (runHub_inv_keys (evs ++ [e]) hval).1, ?_⟩
  have hrun : runHub (evs ++ [e]) = hstep (runHub evs) e := by
    unfold runHub
    rw [List.foldl_append]
    rfl
  rw [hrun]
  cases e with
  | connect c =>
    have hcnotin : c ∉ connectIds evs := by
      rw [connectIds_append] at hval
      exact not_mem_of_nodup_append _ c hval
    have hfresh : lookupChan (runHub evs).chans c = none := by
      rw [lookup_none_iff, hkeys]
      simpa using hcnotin
    exact cp_connect _ c hfresh
  | unreg c => exact cp_unregister _ c hinv
  | bcast m => exact cp_broadcastPass _ hinv m

/-- Witness for C2 on the trace connect 1, connect 2, unregister 1, followed
by a broadcast delivery step. -/
theorem c2_active_iff_open_witness :
    Invariant (runHub [HEvent.connect 1, HEvent.connect 2, HEvent.unreg 1]) ∧
    Invariant (runHub ([HEvent.connect 1, HEvent.connect 2, HEvent.unreg 1] ++
      [HEvent.bcast (Wire.single "x" (JData.num 0))])) ∧
    ClosedPreserved (runHub [HEvent.connect 1, HEvent.connect 2, HEvent.unreg 1])
      (runHub ([HEvent.connect 1, HEvent.connect 2, HEvent.unreg 1] ++
        [HEvent.bcast (Wire.single "x" (JData.num 0))])) :=
  c2_active_iff_open [HEvent.connect 1, HEvent.connect 2, HEvent.unreg 1]
    (HEvent.bcast (Wire.single "x" (JData.num 0))) (by decide)

/-! ## `count()` against the trace-level active set -/

theorem specActive_connect (l : List HEvent) (c : Nat) :
    specActive (l ++ [HEvent.connect c]) = insert c (specActive l) := by
  unfold specActive
  rw [List.foldl_append]
  rfl

theorem specActive_unreg (l : List HEvent) (c : Nat) :
    specActive (l ++ [HEvent.unreg c]) = (specActive l).erase c := by
  unfold specActive
  rw [List.foldl_append]
  rfl

/-- On broadcast-free valid traces, the implementation's client list is, as a
set, exactly the clients registered and not since unregistered. -/
theorem runHub_toFinset :
    ∀ (evs : List HEvent), (connectIds evs).Nodup →
      (∀ e ∈ evs, e.isBcast = false) →
      (runHub evs).clients.toFinset = specActive evs := by
  intro evs
  induction evs using List.reverseRecOn with
  | nil =>
    intro _ _
    rfl
  | append_singleton l e ih =>
    intro hval hnb
    have hval_l : (connectIds l).Nodup := by
      rw [connectIds_append] at hval
      exact hval.of_append_left
    have hnb_l : ∀ x ∈ l, x.isBcast = false :=
      fun x hx => hnb x (List.mem_append_left _ hx)
    have hprev := ih hval_l hnb_l
    obtain ⟨hinv, hkeys⟩ := runHub_inv_keys l hval_l
    have hrun : runHub (l ++ [e]) = hstep (runHub l) e := by
      unfold runHub
      rw [List.foldl_append]
      rfl
    cases e with
    | connect c =>
      have hcnotin : c ∉ connectIds l := by
        rw [connectIds_append] at hval
        exact not_mem_of_nodup_append _ c hval
      have hccl : c ∉ (runHub l).clients := by
        intro hmem
        obtain ⟨_, _, hac, _, _⟩ := hinv
        have := hac c hmem
        rw [hkeys] at this
        exact hcnotin (List.mem_reverse.mp this)
      have hcl : (connectOp (runHub l) c).clients = c :: (runHub l).clients := by
        unfold connectOp registerOp
        simp [hccl]
      rw [hrun]
      show (connectOp (runHub l) c).clients.toFinset = _
      rw [hcl, List.toFinset_cons, hprev, specActive_connect]
    | unreg c =>
      rw [hrun]
      show (unregisterOp (runHub l) c).clients.toFinset = _
      rw [specActive_unreg]
      by_cases hcm : c ∈ (runHub l).clients
      · have he : (unregisterOp (runHub l) c).clients = (runHub l).clients.erase c := by
          unfold unregisterOp
          rw [if_pos hcm]
        rw [he, ← hprev]
        ext a
        simp [List.mem_toFinset, Finset.mem_erase, hinv.1.mem_erase_iff]
      · have he : unregisterOp (runHub l) c = runHub l := by
          unfold unregisterOp
          rw [if_neg hcm]
        rw [he, hprev]
        have hcs : c ∉ specActive l := by
          rw [← hprev]
          simpa [List.mem_toFinset] using hcm
        rw [Finset.erase_eq_of_not_mem hcs]
    | bcast m =>
      have := hnb (HEvent.bcast m) (List.mem_append_right _ (List.mem_singleton_self _))
      simp [HEvent.isBcast] at this

/-- Claim C10 as amended — register has set semantics: registering an
already-active client is a no-op on the whole hub state; and along any
broadcast-free valid trace, `GetClientCount` returns the number of distinct
clients registered and not since unregistered.  (The original "always" fails
on traces containing broadcasts: a broadcast evicts a never-unregistered
client whose send queue is full — see the counterexample below.) -/
theorem c10_register_idempotent_count (s : HubState) (c : Nat) (hc : c ∈ s.clients)
    (evs : List HEvent) (hval : (connectIds evs).Nodup)
    (hnb : ∀ e ∈ evs, e.isBcast = false) :
    registerOp s c = s ∧
    (runHub evs).clients.toFinset = specActive evs ∧
    GetClientCount (runHub evs) = (specActive evs).card := by
  have hreg : registerOp s c = s := by
    unfold registerOp
    rw [if_pos hc]
  have hset := runHub_toFinset evs hval hnb
  have hnd : (runHub evs).clients.Nodup := (runHub_inv_keys evs hval).1.1
  refine ⟨hreg, hset, ?_⟩
  rw [← hset, List.toFinset_card_of_nodup hnd]
  rfl

/-- Witness for C10 on a concrete state and the trace connect 1, connect 2,
connect 3, unregister 2: the count is the two remaining distinct clients. -/
theorem c10_register_idempotent_count_witness :
    registerOp c1state 1 = c1state ∧
    (runHub [HEvent.connect 1, HEvent.connect 2, HEvent.connect 3,
      HEvent.unreg 2]).clients.toFinset =
      specActive [HEvent.connect 1, HEvent.connect 2, HEvent.connect 3, HEvent.unreg 2] ∧
    GetClientCount (runHub [HEvent.connect 1, HEvent.connect 2, HEvent.connect 3,
      HEvent.unreg 2]) =
      (specActive [HEvent.connect 1, HEvent.connect 2, HEvent.connect 3,
        HEvent.unreg 2]).card :=
  c10_register_idempotent_count c1state 1 (by decide)
    [HEvent.connect 1, HEvent.connect 2, HEvent.connect 3, HEvent.unreg 2]
    (by decide) (by decide)

/-- The slow-consumer trace refuting claim C10 as stated: one client connects
and 257 broadcasts follow; the first 256 fill its capacity-256 send queue and
the 257th takes the eviction branch of the broadcast case. -/
def c10trace : List HEvent :=
  HEvent.connect 1 :: List.replicate 257 (HEvent.bcast (Wire.single "x" (JData.num 0)))

set_option maxRecDepth 100000 in
/-- Counterexample to claim C10 as stated: `c10trace` is a valid trace (fresh
connect ids) containing no unregister event — every event is a broadcast or
the single connect — so client 1 is registered and never unregistered and the
registered-minus-unregistered set is exactly `{1}`; yet `GetClientCount`
returns 0, because the 257th broadcast evicted the client whose send queue
was full.  So `count()` does not always equal the number of distinct clients
registered and not yet unregistered. -/
theorem c10_counterexample_eviction :
    (connectIds c10trace).Nodup ∧
    (∀ e ∈ c10trace, e.isBcast = true ∨ e = HEvent.connect 1) ∧
    specActive c10trace = {1} ∧
    GetClientCount (runHub c10trace) = 0 := by
  decide
